import Mathlib

/-!
Verification of the requires-writer core (route scoring, match-path
resolution, component catalog, change detection and emission pipeline)
against its natural-language specification.  Definitions are shallow
embeddings of `src/packages/gatsby/src/bootstrap/requires-writer.ts`.
-/

namespace RequiresWriter

/-! ## Route scorer (`rankRoute`, lines 30-56)

Segments are lists of characters; `segmentize` strips leading and trailing
runs of `/` (the regex replace at line 45) and splits on `/` with JS
`String.prototype.split` semantics (the empty string splits to `[""]`). -/

def SEGMENT_POINTS : Int := 4
def STATIC_POINTS : Int := 3
def DYNAMIC_POINTS : Int := 2
def SPLAT_PENALTY : Int := 1
def ROOT_POINTS : Int := 1

/-- ECMAScript line terminators, the characters the regexp metacharacter
`.` (without the `s` flag) does not match. -/
def isLineTerminator (c : Char) : Bool :=
  c = '\n' || c = '\r' || c = '\u2028' || c = '\u2029'

def isRootSegment (seg : List Char) : Bool := seg = []

/-- Embedding of `paramRe.test(segment)` with `paramRe = /^:(.+)/`: the
segment starts with a colon and the following character exists and is
matched by `.` (i.e. is not a line terminator). -/
def isDynamic : List Char → Bool
  | ':' :: c :: _ => !(isLineTerminator c)
  | _ => false

def isSplat (seg : List Char) : Bool := seg = ['*']

/-- JS `String.prototype.split` on the separator `/`: the empty string
yields `[""]`, adjacent separators yield empty segments. -/
def splitSlash : List Char → List (List Char)
  | [] => [[]]
  | c :: rest =>
    if c = '/' then [] :: splitSlash rest
    else
      match splitSlash rest with
      | s :: ss => (c :: s) :: ss
      | [] => [[c]]

/-- Embedding of `.replace(/(^\/+|\/+$)/g, "")`: drop the leading and the
trailing run of slashes. -/
def stripSlashes (s : List Char) : List Char :=
  ((s.dropWhile (· = '/')).reverse.dropWhile (· = '/')).reverse

def segmentize (uri : String) : List (List Char) :=
  splitSlash (stripSlashes uri.data)

/-- One step of the `reduce` at lines 49-56. -/
def rankStep (score : Int) (seg : List Char) : Int :=
  let score := score + SEGMENT_POINTS
  if isRootSegment seg then score + ROOT_POINTS
  else if isDynamic seg then score + DYNAMIC_POINTS
  else if isSplat seg then score - (SEGMENT_POINTS + SPLAT_PENALTY)
  else score + STATIC_POINTS

def rankRoute (path : String) : Int :=
  (segmentize path).foldl rankStep 0

/-! Claim C2 describes the per-segment contribution in its own words; we
write that description down verbatim so it can be compared with the code. -/

/-- Claim C2's wording of the dynamic test: the segment starts with `:`
followed by at least one character. -/
def claimIsDynamic (seg : List Char) : Bool :=
  seg.head? = some ':' && 2 ≤ seg.length

/-- Claim C2's per-segment score: 4 base, plus 1 for the empty root
segment, else plus 2 for a dynamic segment, else minus 5 for `*`, else
plus 3. -/
def claimSegScore (seg : List Char) : Int :=
  4 + (if seg = [] then 1
       else if claimIsDynamic seg then 2
       else if seg = ['*'] then -5
       else 3)

/-- Claim C2's route score: the sum of the per-segment scores. -/
def claimRankRoute (path : String) : Int :=
  ((segmentize path).map claimSegScore).sum

/-- Amended dynamic test: the segment starts with `:` followed by at least
one character, and that character is not a line terminator (the regexp
`.` does not match line terminators). -/
def amendedIsDynamic (seg : List Char) : Bool :=
  seg.head? = some ':' && 2 ≤ seg.length &&
    (match seg.get? 1 with
     | some c => !(isLineTerminator c)
     | none => false)

/-- Amended per-segment score for claim C2. -/
def amendedSegScore (seg : List Char) : Int :=
  4 + (if seg = [] then 1
       else if amendedIsDynamic seg then 2
       else if seg = ['*'] then -5
       else 3)

/-- Amended route score for claim C2. -/
def amendedRankRoute (path : String) : Int :=
  ((segmentize path).map amendedSegScore).sum

/-! ## Data model (`IGatsbyPage` and derived records) -/

inductive PageMode where
  | SSG
  | DSG
  | SSR
deriving DecidableEq

structure IGatsbyPage where
  path : String
  component : String
  componentChunkName : String
  matchPath : Option String
  mode : PageMode
deriving DecidableEq

/-- Modelled from the spec: the page-mode helper (`getPageMode` from
`utils/page-mode`, which is not part of this file) is modelled as reading
the page's mode. -/
def getPageMode (page : IGatsbyPage) : PageMode := page.mode

structure IGatsbyPageComponent where
  component : String
  componentChunkName : String
deriving DecidableEq

structure IGatsbyPageMatchPath where
  path : String
  matchPath : String
deriving DecidableEq

/-- JS truthiness of `string | undefined`: defined and non-empty. -/
def truthy : Option String → Bool
  | some s => !(s = "")
  | none => false

/-! ## Match-path resolution (`getMatchPaths`, lines 80-168) -/

structure IMatchPathEntry where
  path : String
  component : String
  componentChunkName : String
  mode : PageMode
  matchPath : String
  index : Nat
  score : Int
deriving DecidableEq

/-- Embedding of `createMatchPathEntry` (lines 89-107): `reporter.panic`
on an undefined `matchPath` is modelled as an `Except.error` that aborts
the whole computation. -/
def createMatchPathEntry (page : IGatsbyPage) (index : Nat) :
    Except String IMatchPathEntry :=
  match page.matchPath with
  | none =>
    .error ("Error: matchPath property is undefined for page " ++
      page.path ++ ", should be a string")
  | some matchPath =>
    .ok { path := page.path, component := page.component,
          componentChunkName := page.componentChunkName, mode := page.mode,
          matchPath := matchPath, index := index,
          score := rankRoute matchPath }

/-- Sequential effectful map: each element is processed in order and the
first `reporter.panic` (error) aborts the rest, mirroring `forEach` with
a throwing callback. -/
def mapME (f : α → Except ε β) : List α → Except ε (List β)
  | [] => .ok []
  | a :: as =>
    match f a with
    | .error e => .error e
    | .ok b =>
      match mapME f as with
      | .error e => .error e
      | .ok bs => .ok (b :: bs)

/-- Modelled from the spec: a pattern segment of the form `:name` of the
reach-router matcher (the `match` import, not part of this file). -/
def isParamSeg : List Char → Bool
  | ':' :: _ :: _ => true
  | _ => false

/-- Modelled from the spec: positional segment matching of the
reach-router `match` utility — a trailing `*` matches any remaining
segments (including none), a `:name` segment matches exactly one
non-empty segment, all other segments must match literally, and a pattern
that runs out of segments before the path (with no trailing splat) does
not match. -/
def segMatch : List (List Char) → List (List Char) → Bool
  | [], [] => true
  | [], _ :: _ => false
  | p :: ps, xs =>
    if p = ['*'] ∧ ps = [] then true
    else
      match xs with
      | [] => false
      | x :: xs' =>
        (if isParamSeg p then !(x = []) else decide (p = x)) && segMatch ps xs'

/-- Modelled from the spec: the reach-router `match(pattern, path)`
predicate, applied to the segmentations of the two strings. -/
def reachMatch (pattern uri : String) : Bool :=
  segMatch (segmentize pattern) (segmentize uri)

/-- Explicit entries: the first `pages.forEach` of `getMatchPaths`
(lines 111-121), including the Gatsby-major-4 mode filter. -/
def explicitMatchPathPages (gatsbyMajor4 : Bool) (pages : List IGatsbyPage) :
    Except String (List IMatchPathEntry) :=
  mapME (fun ip => createMatchPathEntry ip.2 ip.1)
    (pages.enum.filter fun ip =>
      if gatsbyMajor4 then
        truthy ip.2.matchPath && decide (getPageMode ip.2 = PageMode.SSG)
      else
        truthy ip.2.matchPath)

/-- Synthesized entries: the second `pages.forEach` of `getMatchPaths`
(lines 131-148). -/
def newMatchesOf (pages : List IGatsbyPage)
    (matchPathPages : List IMatchPathEntry) :
    Except String (List IMatchPathEntry) :=
  mapME (fun ip => createMatchPathEntry { ip.2 with matchPath := some ip.2.path } ip.1)
    (pages.enum.filter fun ip =>
      matchPathPages.any fun pageWithMatchPath =>
        !truthy ip.2.matchPath &&
          reachMatch pageWithMatchPath.matchPath ip.2.path)

/-- Embedding of the character comparison underlying the string
comparator: negative, zero or positive according to the first differing
character. -/
def strCmpL : List Char → List Char → Int
  | [], [] => 0
  | [], _ :: _ => -1
  | _ :: _, [] => 1
  | a :: as, b :: bs =>
    if a.toNat < b.toNat then -1
    else if b.toNat < a.toNat then 1
    else strCmpL as bs

/-- Modelled from the spec: `String.prototype.localeCompare`, which the
spec describes as "ascending lexicographic comparison", modelled as
code-point lexicographic comparison. -/
def localeCompare (a b : String) : Int :=
  strCmpL a.data b.data

/-- The sort comparator of `getMatchPaths` (lines 154-164). -/
def compareMatchPathEntries (a b : IMatchPathEntry) : Int :=
  let order := b.score - a.score
  if order ≠ 0 then order
  else localeCompare a.matchPath b.matchPath

/-- Comparator result at most zero; `Array.prototype.sort` (stable) is
modelled as a stable insertion sort on this relation. -/
def entrySortLe (a b : IMatchPathEntry) : Prop :=
  compareMatchPathEntries a b ≤ 0

instance : DecidableRel entrySortLe := fun _ _ => Int.decLe _ _

/-- Embedding of `getMatchPaths` (lines 80-168). -/
def getMatchPaths (gatsbyMajor4 : Bool) (pages : List IGatsbyPage) :
    Except String (List IGatsbyPageMatchPath) :=
  match explicitMatchPathPages gatsbyMajor4 pages with
  | .error e => .error e
  | .ok matchPathPages =>
    match
      (if matchPathPages.isEmpty then .ok matchPathPages
       else
         match newMatchesOf pages matchPathPages with
         | .error e => .error e
         | .ok newMatches => .ok (matchPathPages ++ newMatches) :
        Except String (List IMatchPathEntry)) with
    | .error e => .error e
    | .ok allEntries =>
      .ok ((List.insertionSort entrySortLe allEntries).map fun e =>
        { path := e.path, matchPath := e.matchPath })


/-! ## Component catalog (`getComponents`, lines 65-74) -/

def pickComponentFields (page : IGatsbyPage) : IGatsbyPageComponent :=
  { component := page.component, componentChunkName := page.componentChunkName }

/-- Embedding of lodash `uniqBy` keyed by `componentChunkName`: the first
occurrence of each key is kept, in input order. -/
def uniqByChunkAux (seen : List String) :
    List IGatsbyPageComponent → List IGatsbyPageComponent
  | [] => []
  | c :: cs =>
    if c.componentChunkName ∈ seen then uniqByChunkAux seen cs
    else c :: uniqByChunkAux (c.componentChunkName :: seen) cs

def uniqByChunk (l : List IGatsbyPageComponent) : List IGatsbyPageComponent :=
  uniqByChunkAux [] l

/-- The lodash `orderBy` ascending comparison on `componentChunkName`
(string comparison); `orderBy` sorts stably. -/
def componentSortLe (a b : IGatsbyPageComponent) : Prop :=
  strCmpL a.componentChunkName.data b.componentChunkName.data ≤ 0

instance : DecidableRel componentSortLe := fun _ _ => Int.decLe _ _

/-- Embedding of `getComponents` (lines 68-74). -/
def getComponents (pages : List IGatsbyPage) : List IGatsbyPageComponent :=
  List.insertionSort componentSortLe (uniqByChunk (pages.map pickComponentFields))

/-! ## Change detection and emission (`createHash`, `writeAll`,
lines 170-331) -/

structure Env where
  gatsbyMajor4 : Bool
  devSSR : Bool
deriving DecidableEq

structure IGatsbyState where
  pages : List IGatsbyPage
  visitedServerPages : List String
deriving DecidableEq

abbrev HashVal :=
  List IGatsbyPageMatchPath × List IGatsbyPageComponent × List IGatsbyPageComponent

/-- Embedding of `createHash` (lines 170-184): the MD5 digest of the
canonical JSON serialization of the three inputs is modelled as the
serialized triple itself (the serialization is injective; hash collisions
are an accepted risk that is not modelled). -/
def createHash (matchPaths : List IGatsbyPageMatchPath)
    (components : List IGatsbyPageComponent)
    (cleanedSSRVisitedPageComponents : List IGatsbyPageComponent) : HashVal :=
  (matchPaths, components, cleanedSSRVisitedPageComponents)

/-- The module-level mutable `lastHash` (line 59). -/
structure PipelineState where
  lastHash : Option HashVal
deriving DecidableEq

/-- The `cleanedSSRVisitedPageComponents` computation of `writeAll`
(lines 192-203). -/
def cleanedSSRComponents (devSSR : Bool) (visitedServerPages : List String)
    (components : List IGatsbyPageComponent) : List IGatsbyPageComponent :=
  if devSSR then
    components.filter fun c =>
      visitedServerPages.any fun s => s = c.componentChunkName
  else []

def ssrSyncRequiresArtifact : String := "ssr-sync-requires"
def syncRequiresArtifact : String := "sync-requires.js"
def asyncRequiresArtifact : String := "async-requires.js"
def matchPathsArtifact : String := "match-paths.json"

structure WriteAllOutput where
  ps : PipelineState
  res : Except String Bool
  writes : List String

/-- Embedding of `writeAll` (lines 187-331).  Artifact text bodies are
abstracted to artifact names; `writeOk` says whether the joined
`Promise.all` of the `writeAndMove` calls resolves (`false` models an I/O
failure whose rejection propagates to the caller); `writes` lists the
artifact writes that were initiated by the call. -/
def writeAll (env : Env) (state : IGatsbyState) (writeOk : Bool)
    (ps : PipelineState) : WriteAllOutput :=
  match getMatchPaths env.gatsbyMajor4 state.pages with
  | .error e => { ps := ps, res := .error e, writes := [] }
  | .ok matchPaths =>
    let components := getComponents state.pages
    let cleanedSSRVisitedPageComponents :=
      cleanedSSRComponents env.devSSR state.visitedServerPages components
    let newHash := createHash matchPaths components cleanedSSRVisitedPageComponents
    if some newHash = ps.lastHash then
      { ps := ps, res := .ok false, writes := [] }
    else
      { ps := { lastHash := some newHash },
        res := if writeOk then .ok true else .error "EIO: artifact write failed",
        writes :=
          (if env.devSSR then [ssrSyncRequiresArtifact] else []) ++
            [syncRequiresArtifact, asyncRequiresArtifact, matchPathsArtifact] }

/-- The fingerprint `writeAll` computes for a state (lines 190-209). -/
def newHashOf (env : Env) (state : IGatsbyState) : Except String HashVal :=
  match getMatchPaths env.gatsbyMajor4 state.pages with
  | .error e => .error e
  | .ok matchPaths =>
    let components := getComponents state.pages
    .ok (createHash matchPaths components
      (cleanedSSRComponents env.devSSR state.visitedServerPages components))

/-! ## Debounced emission (`debouncedWriteAll`, lines 333-348) -/

/-- Modelled from the spec: lodash `debounce(fn, wait, leading: false)` —
a timer cancelled and re-armed on every notification, firing on the
trailing edge only.  Given the pending deadline and the remaining
(time-ordered) notifications, returns the times the debounced function
runs. -/
def debounceFiresAux (wait deadline : Nat) : List Nat → List Nat
  | [] => [deadline]
  | t :: ts =>
    if t < deadline then debounceFiresAux wait (t + wait) ts
    else deadline :: debounceFiresAux wait (t + wait) ts

/-- Modelled from the spec: the fire times of the trailing-edge debounce
for a time-ordered list of notification times. -/
def debounceFires (wait : Nat) : List Nat → List Nat
  | [] => []
  | t :: ts => debounceFiresAux wait (t + wait) ts

/-! ## Concrete fixtures used by the claims -/

def pageWildcardApp : IGatsbyPage :=
  { path := "/app/*", component := "compA", componentChunkName := "chA",
    matchPath := some "/app/*", mode := PageMode.SSG }

def pageAppSettings : IGatsbyPage :=
  { path := "/app/settings", component := "compB", componentChunkName := "chB",
    matchPath := none, mode := PageMode.SSG }

def pageTieA : IGatsbyPage :=
  { path := "/a", component := "c", componentChunkName := "k",
    matchPath := some "/m/*", mode := PageMode.SSG }

def pageTieB : IGatsbyPage :=
  { path := "/b", component := "c", componentChunkName := "k",
    matchPath := some "/m/*", mode := PageMode.SSG }

def pageRoot : IGatsbyPage :=
  { path := "/", component := "compA", componentChunkName := "chunkA",
    matchPath := none, mode := PageMode.SSG }

def pageC1First : IGatsbyPage :=
  { path := "/p1", component := "A1", componentChunkName := "c1",
    matchPath := none, mode := PageMode.SSG }

def pageC1Second : IGatsbyPage :=
  { path := "/p2", component := "A2", componentChunkName := "c1",
    matchPath := none, mode := PageMode.SSG }

def pageC2Only : IGatsbyPage :=
  { path := "/p3", component := "B", componentChunkName := "c2",
    matchPath := none, mode := PageMode.SSG }

def pageMajor4 : IGatsbyPage :=
  { path := "/m4", component := "c4", componentChunkName := "k4",
    matchPath := some "/m4/*", mode := PageMode.SSG }

def env0 : Env := { gatsbyMajor4 := false, devSSR := false }

def envSSR : Env := { gatsbyMajor4 := false, devSSR := true }

def state0 : IGatsbyState :=
  { pages := [pageRoot], visitedServerPages := [] }

def stateSSR : IGatsbyState :=
  { pages := [pageRoot, pageC2Only], visitedServerPages := ["chunkA"] }

def hash0 : HashVal :=
  ([], [{ component := "compA", componentChunkName := "chunkA" }], [])


def entryWildcardApp : IMatchPathEntry :=
  { path := "/app/*", component := "compA", componentChunkName := "chA",
    mode := PageMode.SSG, matchPath := "/app/*", index := 0,
    score := rankRoute "/app/*" }


def entryMajor4 : IMatchPathEntry :=
  { path := "/m4", component := "c4", componentChunkName := "k4",
    mode := PageMode.SSG, matchPath := "/m4/*", index := 0,
    score := rankRoute "/m4/*" }

/-! ## Theorems -/

theorem rankStep_eq_add (score : Int) (seg : List Char) :
    rankStep score seg = score + amendedSegScore seg := by
  rcases seg with _ | ⟨c, _ | ⟨d, rest⟩⟩
  · simp [rankStep, amendedSegScore, isRootSegment, isDynamic, isSplat,
      SEGMENT_POINTS, ROOT_POINTS]
    omega
  · by_cases hc : c = '*'
    · subst hc
      simp [rankStep, amendedSegScore, amendedIsDynamic, isRootSegment,
        isDynamic, isSplat, SEGMENT_POINTS, STATIC_POINTS, SPLAT_PENALTY]
      omega
    · simp [rankStep, amendedSegScore, amendedIsDynamic, isRootSegment,
        isDynamic, isSplat, hc, SEGMENT_POINTS, STATIC_POINTS]
      omega
  · by_cases hc : c = ':'
    · subst hc
      by_cases hd : isLineTerminator d
      · simp [rankStep, amendedSegScore, amendedIsDynamic, isRootSegment,
          isDynamic, isSplat, hd, SEGMENT_POINTS, STATIC_POINTS]
        omega
      · simp [rankStep, amendedSegScore, amendedIsDynamic, isRootSegment,
          isDynamic, isSplat, hd, SEGMENT_POINTS, DYNAMIC_POINTS]
        omega
    · have hdyn : isDynamic (c :: d :: rest) = false := by
        unfold isDynamic
        split
        · rename_i heq
          injection heq with h1 _
          exact absurd h1 hc
        · rfl
      have hdyn' : amendedIsDynamic (c :: d :: rest) = false := by
        simp [amendedIsDynamic, hc]
      have hsp : isSplat (c :: d :: rest) = false := by
        simp [isSplat]
      simp [rankStep, amendedSegScore, hdyn, hdyn', isRootSegment, hsp,
        SEGMENT_POINTS, STATIC_POINTS]
      omega

theorem foldl_rankStep (l : List (List Char)) (init : Int) :
    l.foldl rankStep init = init + (l.map amendedSegScore).sum := by
  induction l generalizing init with
  | nil => simp
  | cons seg rest ih =>
    simp only [List.foldl_cons, List.map_cons, List.sum_cons, ih,
      rankStep_eq_add]
    ring

theorem rankRoute_eq_amended (p : String) :
    rankRoute p = amendedRankRoute p := by
  simpa [rankRoute, amendedRankRoute] using foldl_rankStep (segmentize p) 0

/-- Claim C2 (counterexample): on the path consisting of a colon followed
by a line feed, the regexp `/^:(.+)/` does not match (JS `.` excludes line
terminators), so the code scores the segment as static (4 + 3 = 7) while
the claim's formula scores it as dynamic (4 + 2 = 6). -/
theorem rankRoute_claim_counterexample :
    rankRoute ":\n" = 7 ∧ claimRankRoute ":\n" = 6 ∧
      rankRoute ":\n" ≠ claimRankRoute ":\n" := by
  refine ⟨by decide, by decide, by decide⟩

/-- Claim C2 (amended): `rankRoute p` equals the sum over the segments of
`p` of 4 base, plus 1 for the empty root segment, else plus 2 for a
segment starting with `:` followed by at least one character that is not
a line terminator, else minus 5 for `*`, else plus 3; moreover
`rankRoute "/" = 5` and `rankRoute "a/*" < rankRoute "a/:id" <
rankRoute "a/b"`. -/
theorem rankRoute_amended :
    (∀ p : String, rankRoute p = amendedRankRoute p) ∧
      rankRoute "/" = 5 ∧
      rankRoute "a/*" < rankRoute "a/:id" ∧
      rankRoute "a/:id" < rankRoute "a/b" := by
  refine ⟨rankRoute_eq_amended, by decide, by decide, by decide⟩


theorem mapME_ok_mem {α β ε : Type} {f : α → Except ε β} :
    ∀ {l : List α} {out : List β}, mapME f l = Except.ok out →
      ∀ {a : α}, a ∈ l → ∃ b ∈ out, f a = Except.ok b := by
  intro l
  induction l with
  | nil => intro out _ a ha; cases ha
  | cons x xs ih =>
    intro out h a ha
    rcases hfx : f x with e | b <;> rw [mapME, hfx] at h
    · cases h
    · rcases hrest : mapME f xs with e | bs <;> rw [hrest] at h
      · cases h
      · cases h
        rcases List.mem_cons.mp ha with rfl | hmem
        · exact ⟨b, List.mem_cons_self _ _, hfx⟩
        · rcases ih hrest hmem with ⟨b1, hb1, hfb1⟩
          exact ⟨b1, List.mem_cons_of_mem _ hb1, hfb1⟩

theorem mapME_ok_mem_rev {α β ε : Type} {f : α → Except ε β} :
    ∀ {l : List α} {out : List β}, mapME f l = Except.ok out →
      ∀ {b : β}, b ∈ out → ∃ a ∈ l, f a = Except.ok b := by
  intro l
  induction l with
  | nil =>
    intro out h b hb
    rw [mapME] at h
    cases h
    cases hb
  | cons x xs ih =>
    intro out h b hb
    rcases hfx : f x with e | b0 <;> rw [mapME, hfx] at h
    · cases h
    · rcases hrest : mapME f xs with e | bs <;> rw [hrest] at h
      · cases h
      · cases h
        rcases List.mem_cons.mp hb with rfl | hmem
        · exact ⟨x, List.mem_cons_self _ _, hfx⟩
        · rcases ih hrest hmem with ⟨a1, ha1, hfa1⟩
          exact ⟨a1, List.mem_cons_of_mem _ ha1, hfa1⟩

theorem mapME_ok_of_forall {α β ε : Type} {f : α → Except ε β} :
    ∀ {l : List α}, (∀ a ∈ l, ∃ b, f a = Except.ok b) →
      ∃ out, mapME f l = Except.ok out := by
  intro l
  induction l with
  | nil => intro h'; exact ⟨[], rfl⟩
  | cons x xs ih =>
    intro hall
    rcases hall x (List.mem_cons_self _ _) with ⟨b, hb⟩
    rcases ih (fun a ha => hall a (List.mem_cons_of_mem _ ha)) with ⟨bs, hbs⟩
    exact ⟨b :: bs, by rw [mapME, hb, hbs]⟩

theorem createMatchPathEntry_ok {page : IGatsbyPage} {i : Nat}
    {e : IMatchPathEntry} (h : createMatchPathEntry page i = Except.ok e) :
    page.matchPath = some e.matchPath ∧ e.path = page.path ∧ e.index = i ∧
      e.score = rankRoute e.matchPath := by
  rcases hm : page.matchPath with _ | mp <;>
    rw [createMatchPathEntry] at h <;> rw [hm] at h
  · cases h
  · cases h
    refine ⟨?_, rfl, rfl, rfl⟩
    simp [hm]

theorem newMatchesOf_isOk (pages : List IGatsbyPage)
    (matchPathPages : List IMatchPathEntry) :
    ∃ nm, newMatchesOf pages matchPathPages = Except.ok nm := by
  apply mapME_ok_of_forall
  intro ip _
  exact ⟨_, rfl⟩

theorem getMatchPaths_eq_expanded {gatsbyMajor4 : Bool}
    {pages : List IGatsbyPage} {exp nm : List IMatchPathEntry}
    (hexp : explicitMatchPathPages gatsbyMajor4 pages = Except.ok exp)
    (hne : exp.isEmpty = false)
    (hnm : newMatchesOf pages exp = Except.ok nm) :
    getMatchPaths gatsbyMajor4 pages =
      Except.ok ((List.insertionSort entrySortLe (exp ++ nm)).map fun e =>
        { path := e.path, matchPath := e.matchPath }) := by
  rw [getMatchPaths, hexp]
  simp [hne, hnm]

theorem mapME_entries_score {α : Type}
    {f : α → Except String IMatchPathEntry}
    (hf : ∀ a e, f a = Except.ok e → e.score = rankRoute e.matchPath)
    {l : List α} {out : List IMatchPathEntry}
    (hm : mapME f l = Except.ok out) :
    ∀ e ∈ out, e.score = rankRoute e.matchPath := by
  intro e he
  rcases mapME_ok_mem_rev hm he with ⟨a, _, hok⟩
  exact hf a e hok
theorem strCmpL_neg : ∀ (a b : List Char), strCmpL a b = - strCmpL b a := by
  intro a
  induction a with
  | nil => intro b; cases b <;> simp [strCmpL]
  | cons x xs ih =>
    intro b
    cases b with
    | nil => simp [strCmpL]
    | cons y ys =>
      simp only [strCmpL]
      by_cases h1 : x.toNat < y.toNat
      · rw [if_pos h1, if_neg (by omega), if_pos h1]
        try norm_num
      · by_cases h2 : y.toNat < x.toNat
        · rw [if_neg h1, if_pos h2, if_pos h2]
          try norm_num
        · rw [if_neg h1, if_neg h2, if_neg h2, if_neg h1]
          exact ih ys

theorem strCmpL_cons_le_iff (x y : Char) (xs ys : List Char) :
    strCmpL (x :: xs) (y :: ys) ≤ 0 ↔
      x.toNat < y.toNat ∨ (x.toNat = y.toNat ∧ strCmpL xs ys ≤ 0) := by
  simp only [strCmpL]
  by_cases h1 : x.toNat < y.toNat
  · rw [if_pos h1]
    constructor
    · intro _; exact Or.inl h1
    · intro _; norm_num
  · rw [if_neg h1]
    by_cases h2 : y.toNat < x.toNat
    · rw [if_pos h2]
      constructor
      · intro h; norm_num at h
      · intro h
        rcases h with h | ⟨h, _⟩ <;> omega
    · rw [if_neg h2]
      constructor
      · intro h; exact Or.inr ⟨by omega, h⟩
      · intro h
        rcases h with h | ⟨_, h⟩
        · omega
        · exact h

theorem strCmpL_le_trans : ∀ {a b c : List Char},
    strCmpL a b ≤ 0 → strCmpL b c ≤ 0 → strCmpL a c ≤ 0 := by
  intro a
  induction a with
  | nil =>
    intro b c _ _
    cases c <;> simp [strCmpL]
  | cons x xs ih =>
    intro b c h1 h2
    cases b with
    | nil => simp [strCmpL] at h1
    | cons y ys =>
      cases c with
      | nil => simp [strCmpL] at h2
      | cons z zs =>
        rw [strCmpL_cons_le_iff] at h1 h2 ⊢
        rcases h1 with h1 | ⟨h1e, h1r⟩
        · rcases h2 with h2 | ⟨h2e, _⟩
          · exact Or.inl (by omega)
          · exact Or.inl (by omega)
        · rcases h2 with h2 | ⟨h2e, h2r⟩
          · exact Or.inl (by omega)
          · exact Or.inr ⟨by omega, ih h1r h2r⟩

theorem entrySortLe_iff (a b : IMatchPathEntry) :
    entrySortLe a b ↔
      b.score < a.score ∨
        (b.score = a.score ∧ localeCompare a.matchPath b.matchPath ≤ 0) := by
  unfold entrySortLe compareMatchPathEntries
  by_cases h : b.score - a.score ≠ 0
  · rw [if_pos h]
    constructor
    · intro hle; exact Or.inl (by omega)
    · intro hor
      rcases hor with h1 | ⟨h1, _⟩ <;> omega
  · rw [if_neg h]
    constructor
    · intro hle; exact Or.inr ⟨by omega, hle⟩
    · intro hor
      rcases hor with h1 | ⟨_, h1⟩
      · omega
      · exact h1

theorem entrySortLe_total (a b : IMatchPathEntry) :
    entrySortLe a b ∨ entrySortLe b a := by
  rw [entrySortLe_iff, entrySortLe_iff]
  rcases lt_trichotomy a.score b.score with h | h | h
  · exact Or.inr (Or.inl h)
  · have hneg := strCmpL_neg a.matchPath.data b.matchPath.data
    by_cases hlc : localeCompare a.matchPath b.matchPath ≤ 0
    · exact Or.inl (Or.inr ⟨h.symm, hlc⟩)
    · refine Or.inr (Or.inr ⟨h, ?_⟩)
      unfold localeCompare at *
      omega
  · exact Or.inl (Or.inl h)

theorem entrySortLe_trans {a b c : IMatchPathEntry}
    (h1 : entrySortLe a b) (h2 : entrySortLe b c) : entrySortLe a c := by
  rw [entrySortLe_iff] at h1 h2 ⊢
  rcases h1 with h1 | ⟨h1e, h1l⟩
  · rcases h2 with h2 | ⟨h2e, _⟩
    · exact Or.inl (by omega)
    · exact Or.inl (by omega)
  · rcases h2 with h2 | ⟨h2e, h2l⟩
    · exact Or.inl (by omega)
    · refine Or.inr ⟨by omega, ?_⟩
      unfold localeCompare at *
      exact strCmpL_le_trans h1l h2l

theorem sorted_projected_of_scores (allEntries : List IMatchPathEntry)
    (hscore : ∀ e ∈ allEntries, e.score = rankRoute e.matchPath) :
    ((List.insertionSort entrySortLe allEntries).map fun e =>
        ({ path := e.path, matchPath := e.matchPath } : IGatsbyPageMatchPath)).Pairwise
      fun a b =>
        rankRoute b.matchPath < rankRoute a.matchPath ∨
          (rankRoute b.matchPath = rankRoute a.matchPath ∧
            localeCompare a.matchPath b.matchPath ≤ 0) := by
  haveI htot : IsTotal IMatchPathEntry entrySortLe := ⟨entrySortLe_total⟩
  haveI htr : IsTrans IMatchPathEntry entrySortLe :=
    ⟨fun _ _ _ => entrySortLe_trans⟩
  have hs : (List.insertionSort entrySortLe allEntries).Pairwise entrySortLe :=
    List.sorted_insertionSort entrySortLe allEntries
  have hmem : ∀ e ∈ List.insertionSort entrySortLe allEntries,
      e.score = rankRoute e.matchPath := fun e he =>
    hscore e ((List.mem_insertionSort entrySortLe).mp he)
  rw [List.pairwise_map]
  refine hs.imp_of_mem ?_
  intro a b ha hb hab
  rw [entrySortLe_iff] at hab
  rw [hmem a ha, hmem b hb] at hab
  exact hab

theorem getMatchPaths_eq_noexpand {gatsbyMajor4 : Bool}
    {pages : List IGatsbyPage} {exp : List IMatchPathEntry}
    (hexp : explicitMatchPathPages gatsbyMajor4 pages = Except.ok exp)
    (he : exp.isEmpty = true) :
    getMatchPaths gatsbyMajor4 pages =
      Except.ok ((List.insertionSort entrySortLe exp).map fun e =>
        { path := e.path, matchPath := e.matchPath }) := by
  rw [getMatchPaths, hexp]
  simp [he]

/-- Claim C3: implicit match expansion.  For the page set containing the
wildcard page `/app/*` (with matchPath `/app/*`) and the concrete page
`/app/settings` (with no matchPath), `getMatchPaths` returns both
`{path := "/app/settings", matchPath := "/app/settings"}` and
`{path := "/app/*", matchPath := "/app/*"}`, with the concrete entry
ordered first; and in general every page without a truthy matchPath whose
path matches at least one collected pattern yields a synthesized entry
whose matchPath equals its own path. -/
theorem getMatchPaths_implicit_expansion :
    (getMatchPaths false [pageWildcardApp, pageAppSettings] =
      Except.ok [{ path := "/app/settings", matchPath := "/app/settings" },
                 { path := "/app/*", matchPath := "/app/*" }]) ∧
    ∀ (gatsbyMajor4 : Bool) (pages : List IGatsbyPage)
      (exp : List IMatchPathEntry) (i : Nat) (page : IGatsbyPage)
      (res : List IGatsbyPageMatchPath),
      explicitMatchPathPages gatsbyMajor4 pages = Except.ok exp →
      pages[i]? = some page →
      truthy page.matchPath = false →
      (∃ e ∈ exp, reachMatch e.matchPath page.path = true) →
      getMatchPaths gatsbyMajor4 pages = Except.ok res →
      { path := page.path, matchPath := page.path } ∈ res := by
  refine ⟨rfl, ?_⟩
  intro m4 pages exp i page res hexp hi hfalse hmatch hres
  rcases hmatch with ⟨e0, he0, hm0⟩
  have hne : exp.isEmpty = false := by
    cases exp with
    | nil => cases he0
    | cons _ _ => rfl
  obtain ⟨nm, hnm⟩ := newMatchesOf_isOk pages exp
  rw [getMatchPaths_eq_expanded hexp hne hnm] at hres
  cases hres
  have henum : (i, page) ∈ pages.enum :=
    List.mk_mem_enum_iff_getElem?.mpr hi
  have hfilter : (i, page) ∈ pages.enum.filter (fun ip =>
      exp.any fun pageWithMatchPath =>
        !truthy ip.2.matchPath &&
          reachMatch pageWithMatchPath.matchPath ip.2.path) := by
    refine List.mem_filter.mpr ⟨henum, ?_⟩
    refine List.any_eq_true.mpr ⟨e0, he0, ?_⟩
    simp [hfalse, hm0]
  have hnm' : mapME (fun ip =>
      createMatchPathEntry { ip.2 with matchPath := some ip.2.path } ip.1)
      (pages.enum.filter fun ip =>
        exp.any fun pageWithMatchPath =>
          !truthy ip.2.matchPath &&
            reachMatch pageWithMatchPath.matchPath ip.2.path) =
      Except.ok nm := hnm
  obtain ⟨b, hb, hok⟩ := mapME_ok_mem hnm' hfilter
  obtain ⟨hbm, hbp, _, _⟩ := createMatchPathEntry_ok hok
  have hbm1 : b.matchPath = page.path := by simpa using hbm.symm
  have hbp1 : b.path = page.path := by simpa using hbp
  refine List.mem_map.mpr ⟨b, ?_, ?_⟩
  · exact (List.mem_insertionSort entrySortLe).mpr (List.mem_append_right _ hb)
  · simp [hbm1, hbp1]

/-- Claim C3 (witness): the general implicit-expansion statement applied
to the concrete `/app/*` plus `/app/settings` page set. -/
theorem getMatchPaths_implicit_expansion_witness :
    ({ path := "/app/settings", matchPath := "/app/settings" } :
        IGatsbyPageMatchPath) ∈
      ([{ path := "/app/settings", matchPath := "/app/settings" },
        { path := "/app/*", matchPath := "/app/*" }] :
        List IGatsbyPageMatchPath) :=
  getMatchPaths_implicit_expansion.2 false [pageWildcardApp, pageAppSettings]
    [entryWildcardApp] 1 pageAppSettings _ rfl rfl rfl
    ⟨entryWildcardApp, List.mem_cons_self _ _, rfl⟩ rfl

/-- Claim C4 (counterexample): two pages with identical matchPath (hence
equal score and equal tie-break key) but different paths — permuting the
two pages in the input permutes the output, so `getMatchPaths` is not
invariant under permutations of its input. -/
theorem getMatchPaths_permutation_counterexample :
    [pageTieA, pageTieB].Perm [pageTieB, pageTieA] ∧
      getMatchPaths false [pageTieA, pageTieB] =
        Except.ok [{ path := "/a", matchPath := "/m/*" },
                   { path := "/b", matchPath := "/m/*" }] ∧
      getMatchPaths false [pageTieB, pageTieA] =
        Except.ok [{ path := "/b", matchPath := "/m/*" },
                   { path := "/a", matchPath := "/m/*" }] ∧
      ([{ path := "/a", matchPath := "/m/*" },
        { path := "/b", matchPath := "/m/*" }] : List IGatsbyPageMatchPath) ≠
        [{ path := "/b", matchPath := "/m/*" },
         { path := "/a", matchPath := "/m/*" }] :=
  ⟨List.Perm.swap _ _ _, rfl, rfl, by decide⟩

/-- Claim C4 (amended): every successful `getMatchPaths` output is sorted
descending by route score (the score of an output entry is `rankRoute` of
its matchPath), with equal scores ordered ascending (non-strictly) by the
string comparison of the matchPath; determinism for identical inputs is
immediate since the function is pure, but permutation-invariance fails
when two entries tie on both score and matchPath. -/
theorem getMatchPaths_sorted {gatsbyMajor4 : Bool}
    {pages : List IGatsbyPage} {res : List IGatsbyPageMatchPath}
    (h : getMatchPaths gatsbyMajor4 pages = Except.ok res) :
    res.Pairwise fun a b =>
      rankRoute b.matchPath < rankRoute a.matchPath ∨
        (rankRoute b.matchPath = rankRoute a.matchPath ∧
          localeCompare a.matchPath b.matchPath ≤ 0) := by
  rcases hexp : explicitMatchPathPages gatsbyMajor4 pages with e | exp
  · rw [getMatchPaths, hexp] at h
    cases h
  · have hexp_score : ∀ e1 ∈ exp, e1.score = rankRoute e1.matchPath :=
      mapME_entries_score
        (fun a e1 hok => (createMatchPathEntry_ok hok).2.2.2) hexp
    by_cases hne : exp.isEmpty = true
    · rw [getMatchPaths_eq_noexpand hexp hne] at h
      cases h
      exact sorted_projected_of_scores exp hexp_score
    · have hne1 : exp.isEmpty = false := by
        cases hb : exp.isEmpty
        · rfl
        · exact absurd hb hne
      obtain ⟨nm, hnm⟩ := newMatchesOf_isOk pages exp
      rw [getMatchPaths_eq_expanded hexp hne1 hnm] at h
      cases h
      refine sorted_projected_of_scores (exp ++ nm) ?_
      intro e1 he1
      rcases List.mem_append.mp he1 with h1 | h1
      · exact hexp_score e1 h1
      · exact mapME_entries_score
          (fun a e2 hok => (createMatchPathEntry_ok hok).2.2.2) hnm e1 h1

/-- Claim C4 (witness): the sortedness statement applied to the concrete
`/app/*` plus `/app/settings` page set. -/
theorem getMatchPaths_sorted_witness :
    ([{ path := "/app/settings", matchPath := "/app/settings" },
      { path := "/app/*", matchPath := "/app/*" }] :
        List IGatsbyPageMatchPath).Pairwise
      (fun a b =>
        rankRoute b.matchPath < rankRoute a.matchPath ∨
          (rankRoute b.matchPath = rankRoute a.matchPath ∧
            localeCompare a.matchPath b.matchPath ≤ 0)) :=
  @getMatchPaths_sorted false [pageWildcardApp, pageAppSettings] _ rfl

/-- Claim C10: under the Gatsby-major-4 flag, every explicit match entry
comes from a page whose matchPath is truthy and whose page mode is SSG —
a page with a matchPath whose mode is not SSG contributes no explicit
entry. -/
theorem explicit_entries_major4_ssg_only
    {pages : List IGatsbyPage} {exp : List IMatchPathEntry}
    (hexp : explicitMatchPathPages true pages = Except.ok exp)
    {e : IMatchPathEntry} (he : e ∈ exp) :
    ∃ page : IGatsbyPage, pages[e.index]? = some page ∧
      truthy page.matchPath = true ∧ getPageMode page = PageMode.SSG ∧
      page.matchPath = some e.matchPath := by
  obtain ⟨ip, hip, hok⟩ := mapME_ok_mem_rev hexp he
  obtain ⟨i0, p0⟩ := ip
  obtain ⟨henum, hcond⟩ := List.mem_filter.mp hip
  obtain ⟨hmp, _, hidx, _⟩ := createMatchPathEntry_ok hok
  simp only [if_true, Bool.and_eq_true, decide_eq_true_eq] at hcond
  refine ⟨p0, ?_, hcond.1, hcond.2, hmp⟩
  rw [hidx]
  exact List.mk_mem_enum_iff_getElem?.mp henum

/-- Claim C10 (witness): the SSG-only statement applied to a concrete
one-page set. -/
theorem explicit_entries_major4_ssg_only_witness :
    ∃ page : IGatsbyPage, [pageMajor4][entryMajor4.index]? = some page ∧
      truthy page.matchPath = true ∧ getPageMode page = PageMode.SSG ∧
      page.matchPath = some entryMajor4.matchPath :=
  @explicit_entries_major4_ssg_only [pageMajor4] _ rfl _
    (List.mem_cons_self _ _)

theorem componentSortLe_total (a b : IGatsbyPageComponent) :
    componentSortLe a b ∨ componentSortLe b a := by
  unfold componentSortLe
  have := strCmpL_neg a.componentChunkName.data b.componentChunkName.data
  omega

theorem componentSortLe_trans {a b c : IGatsbyPageComponent}
    (h1 : componentSortLe a b) (h2 : componentSortLe b c) :
    componentSortLe a c :=
  strCmpL_le_trans h1 h2

theorem uniqAux_filter_mem (k : String) :
    ∀ (seen : List String) (l : List IGatsbyPageComponent), k ∈ seen →
      (uniqByChunkAux seen l).filter
        (fun r => r.componentChunkName == k) = [] := by
  intro seen l
  induction l generalizing seen with
  | nil => intro _; simp [uniqByChunkAux]
  | cons c cs ih =>
    intro hk
    rw [uniqByChunkAux]
    by_cases hcs : c.componentChunkName ∈ seen
    · rw [if_pos hcs]
      exact ih _ hk
    · rw [if_neg hcs]
      have hck : ¬ (c.componentChunkName == k) = true := by
        simp only [beq_iff_eq]
        intro hEq
        exact hcs (hEq ▸ hk)
      rw [List.filter_cons_of_neg (p := fun r : IGatsbyPageComponent => r.componentChunkName == k) (a := c) hck]
      exact ih _ (List.mem_cons_of_mem _ hk)

theorem uniqAux_filter_not_mem (k : String) :
    ∀ (seen : List String) (l : List IGatsbyPageComponent), k ∉ seen →
      (uniqByChunkAux seen l).filter (fun r => r.componentChunkName == k) =
        (l.find? fun r => r.componentChunkName == k).toList := by
  intro seen l
  induction l generalizing seen with
  | nil => intro _; simp [uniqByChunkAux]
  | cons c cs ih =>
    intro hk
    rw [uniqByChunkAux]
    by_cases hcs : c.componentChunkName ∈ seen
    · rw [if_pos hcs]
      have hck : ¬ (c.componentChunkName == k) = true := by
        simp only [beq_iff_eq]
        intro hEq
        exact hk (hEq ▸ hcs)
      rw [ih _ hk, List.find?_cons_of_neg (p := fun r : IGatsbyPageComponent => r.componentChunkName == k) (a := c) _ hck]
    · rw [if_neg hcs]
      by_cases hck : c.componentChunkName = k
      · rw [List.filter_cons_of_pos (p := fun r : IGatsbyPageComponent => r.componentChunkName == k) (a := c) (by simp [hck]),
          List.find?_cons_of_pos (p := fun r : IGatsbyPageComponent => r.componentChunkName == k) (a := c) _ (by simp [hck])]
        rw [uniqAux_filter_mem k _ _ (by simp [hck])]
        simp
      · rw [List.filter_cons_of_neg (p := fun r : IGatsbyPageComponent => r.componentChunkName == k) (a := c) (by simp [hck]),
          List.find?_cons_of_neg (p := fun r : IGatsbyPageComponent => r.componentChunkName == k) (a := c) _ (by simp [hck])]
        refine ih _ ?_
        intro hmem
        rcases List.mem_cons.mp hmem with h1 | h1
        · exact hck h1.symm
        · exact hk h1

theorem getComponents_filter_eq (pages : List IGatsbyPage) (k : String) :
    (getComponents pages).filter (fun r => r.componentChunkName == k) =
      ((pages.map pickComponentFields).find? fun r =>
        r.componentChunkName == k).toList := by
  unfold getComponents uniqByChunk
  have hperm := (List.perm_insertionSort componentSortLe
    (uniqByChunkAux [] (pages.map pickComponentFields))).filter
    (fun r => r.componentChunkName == k)
  rw [uniqAux_filter_not_mem k [] (pages.map pickComponentFields)
    (by simp)] at hperm
  rcases hfind : (pages.map pickComponentFields).find?
      (fun r => r.componentChunkName == k) with _ | c <;>
    rw [hfind] at hperm ⊢
  · simp only [Option.toList_none] at hperm ⊢
    exact List.perm_nil.mp hperm
  · simp only [Option.toList_some] at hperm ⊢
    exact List.perm_singleton.mp hperm

theorem uniqAux_keys :
    ∀ (seen : List String) (l : List IGatsbyPageComponent),
      ((uniqByChunkAux seen l).map fun r => r.componentChunkName).Nodup ∧
        ∀ r ∈ uniqByChunkAux seen l, r.componentChunkName ∉ seen := by
  intro seen l
  induction l generalizing seen with
  | nil => exact ⟨List.nodup_nil, by intro r hr; cases hr⟩
  | cons c cs ih =>
    rw [uniqByChunkAux]
    by_cases hcs : c.componentChunkName ∈ seen
    · rw [if_pos hcs]
      exact ih seen
    · rw [if_neg hcs]
      obtain ⟨hnd, hnotin⟩ := ih (c.componentChunkName :: seen)
      constructor
      · rw [List.map_cons, List.nodup_cons]
        refine ⟨?_, hnd⟩
        intro hmem
        rcases List.mem_map.mp hmem with ⟨r, hr, hrk⟩
        exact (hnotin r hr) (hrk ▸ List.mem_cons_self _ _)
      · intro r hr
        rcases List.mem_cons.mp hr with rfl | hr1
        · exact hcs
        · exact fun hmem =>
            (hnotin r hr1) (List.mem_cons_of_mem _ hmem)

theorem getComponents_keys_nodup (pages : List IGatsbyPage) :
    ((getComponents pages).map fun r => r.componentChunkName).Nodup := by
  unfold getComponents uniqByChunk
  have hperm := (List.perm_insertionSort componentSortLe
    (uniqByChunkAux [] (pages.map pickComponentFields))).map
    fun r => r.componentChunkName
  exact hperm.nodup_iff.mpr (uniqAux_keys [] (pages.map pickComponentFields)).1

theorem getComponents_sorted (pages : List IGatsbyPage) :
    (getComponents pages).Pairwise componentSortLe := by
  haveI : IsTotal IGatsbyPageComponent componentSortLe := ⟨componentSortLe_total⟩
  haveI : IsTrans IGatsbyPageComponent componentSortLe :=
    ⟨fun _ _ _ => componentSortLe_trans⟩
  exact List.sorted_insertionSort componentSortLe _

theorem getComponents_complete (pages : List IGatsbyPage)
    (p : IGatsbyPage) (hp : p ∈ pages) :
    ∃ r ∈ getComponents pages,
      r.componentChunkName = p.componentChunkName := by
  have hx : pickComponentFields p ∈ pages.map pickComponentFields :=
    List.mem_map_of_mem _ hp
  have hsome : ((pages.map pickComponentFields).find? fun r =>
      r.componentChunkName == p.componentChunkName).isSome := by
    rw [List.find?_isSome]
    exact ⟨pickComponentFields p, hx, by simp [pickComponentFields]⟩
  rcases hfind : (pages.map pickComponentFields).find?
      (fun r => r.componentChunkName == p.componentChunkName) with _ | r
  · rw [hfind] at hsome; cases hsome
  · have hfil := getComponents_filter_eq pages p.componentChunkName
    rw [hfind] at hfil
    have hrmem : r ∈ (getComponents pages).filter
        (fun x => x.componentChunkName == p.componentChunkName) := by
      rw [hfil]
      exact List.mem_cons_self _ _
    obtain ⟨hr1, hr2⟩ := List.mem_filter.mp hrmem
    exact ⟨r, hr1, by simpa using hr2⟩

/-- Claim C5: `getComponents` projects each page to its component record,
deduplicates by `componentChunkName` keeping the first occurrence
(for any key, the output's records with that key are exactly the first
projected record carrying it), sorts ascending by `componentChunkName`
(with each key appearing exactly once, and every input page's key
represented), and on the two concrete page sets of the spec returns the
`c1`-first-occurrence record followed by the `c2` record regardless of
input order.  The input list is never mutated: the embedding is a pure
function of the input. -/
theorem getComponents_spec :
    (∀ (pages : List IGatsbyPage) (k : String),
        (getComponents pages).filter (fun r => r.componentChunkName == k) =
          ((pages.map pickComponentFields).find? fun r =>
            r.componentChunkName == k).toList) ∧
    (∀ pages : List IGatsbyPage,
        (getComponents pages).Pairwise componentSortLe) ∧
    (∀ pages : List IGatsbyPage,
        ((getComponents pages).map fun r => r.componentChunkName).Nodup) ∧
    (∀ pages : List IGatsbyPage, ∀ p ∈ pages,
        ∃ r ∈ getComponents pages,
          r.componentChunkName = p.componentChunkName) ∧
    getComponents [pageC1First, pageC1Second, pageC2Only] =
      [{ component := "A1", componentChunkName := "c1" },
       { component := "B", componentChunkName := "c2" }] ∧
    getComponents [pageC2Only, pageC1First, pageC1Second] =
      [{ component := "A1", componentChunkName := "c1" },
       { component := "B", componentChunkName := "c2" }] :=
  ⟨getComponents_filter_eq, getComponents_sorted, getComponents_keys_nodup,
    getComponents_complete, rfl, rfl⟩

/-- Claim C5 (witness): the first-occurrence and completeness parts of the
statement applied to the concrete three-page set. -/
theorem getComponents_spec_witness :
    (getComponents [pageC1First, pageC1Second, pageC2Only]).filter
        (fun r => r.componentChunkName == "c1") =
      (([pageC1First, pageC1Second, pageC2Only].map
        pickComponentFields).find? fun r =>
          r.componentChunkName == "c1").toList ∧
    ∃ r ∈ getComponents [pageC1First, pageC1Second, pageC2Only],
      r.componentChunkName = pageC1First.componentChunkName :=
  ⟨getComponents_spec.1 _ "c1",
   getComponents_spec.2.2.2.1 _ pageC1First (List.mem_cons_self _ _)⟩

theorem writeAll_skip (env : Env) (state : IGatsbyState) (ps : PipelineState)
    (h : HashVal) (writeOk : Bool)
    (hnew : newHashOf env state = Except.ok h)
    (heq : ps.lastHash = some h) :
    writeAll env state writeOk ps =
      { ps := ps, res := Except.ok false, writes := [] } := by
  rcases hg : getMatchPaths env.gatsbyMajor4 state.pages with e | mp <;>
    rw [newHashOf, hg] at hnew
  · cases hnew
  · cases hnew
    rw [writeAll, hg]
    simp [heq]

theorem writeAll_write (env : Env) (state : IGatsbyState) (ps : PipelineState)
    (h : HashVal) (writeOk : Bool)
    (hnew : newHashOf env state = Except.ok h)
    (hneq : ps.lastHash ≠ some h) :
    (writeAll env state writeOk ps).ps.lastHash = some h ∧
      (writeAll env state writeOk ps).res =
        (if writeOk then Except.ok true
         else Except.error "EIO: artifact write failed") ∧
      (writeAll env state writeOk ps).writes ≠ [] := by
  rcases hg : getMatchPaths env.gatsbyMajor4 state.pages with e | mp <;>
    rw [newHashOf, hg] at hnew
  · cases hnew
  · cases hnew
    rw [writeAll, hg]
    have hcond : ¬ (some (createHash mp (getComponents state.pages)
        (cleanedSSRComponents env.devSSR state.visitedServerPages
          (getComponents state.pages))) = ps.lastHash) :=
      fun hc => hneq hc.symm
    simp only [hcond, if_false, ite_false, if_neg hcond]
    refine ⟨by trivial, by trivial, ?_⟩
    cases env.devSSR <;> simp

/-- Claim C6: change suppression.  `writeAll` skips (returns the
no-change signal `false` and performs zero writes) exactly when the
computed fingerprint equals the stored `lastHash`; in particular, of two
consecutive calls on an unchanged state the first returns `true` and the
second returns `false` with zero writes. -/
theorem writeAll_change_suppression :
    (∀ (env : Env) (state : IGatsbyState) (writeOk : Bool)
        (ps : PipelineState) (h : HashVal),
        newHashOf env state = Except.ok h →
        (((writeAll env state writeOk ps).res = Except.ok false ∧
            (writeAll env state writeOk ps).writes = []) ↔
          ps.lastHash = some h)) ∧
    (writeAll env0 state0 true { lastHash := none }).res = Except.ok true ∧
    (writeAll env0 state0 true
        (writeAll env0 state0 true { lastHash := none }).ps).res =
      Except.ok false ∧
    (writeAll env0 state0 true
        (writeAll env0 state0 true { lastHash := none }).ps).writes = [] := by
  refine ⟨?_, rfl, rfl, rfl⟩
  intro env state writeOk ps h hnew
  by_cases heq : ps.lastHash = some h
  · rw [writeAll_skip env state ps h writeOk hnew heq]
    simpa using heq
  · obtain ⟨_, hres, hw⟩ := writeAll_write env state ps h writeOk hnew heq
    constructor
    · intro hc
      exact absurd hc.2 hw
    · intro hl
      exact absurd hl heq

/-- Claim C6 (witness): the skip-iff-fingerprint-equal statement applied
to the concrete one-page state whose hash is already stored. -/
theorem writeAll_change_suppression_witness :
    ((writeAll env0 state0 true { lastHash := some hash0 }).res =
          Except.ok false ∧
        (writeAll env0 state0 true { lastHash := some hash0 }).writes = []) ↔
      ({ lastHash := some hash0 } : PipelineState).lastHash = some hash0 :=
  writeAll_change_suppression.1 env0 state0 true { lastHash := some hash0 }
    hash0 rfl

/-- Claim C1 (counterexample): starting from no successful emission
(`lastHash = none`), a `writeAll` whose artifact writes fail still stores
the new fingerprint in `lastHash` (the update happens before the writes
are awaited), and a subsequent run with the same page state skips
emission instead of re-attempting it — contradicting the claim that a
failed write leaves `lastHash` at the hash of the last successful
emission. -/
theorem writeAll_failed_write_counterexample :
    (writeAll env0 state0 false { lastHash := none }).res =
        Except.error "EIO: artifact write failed" ∧
      (writeAll env0 state0 false { lastHash := none }).ps.lastHash =
        some hash0 ∧
      some hash0 ≠ (none : Option HashVal) ∧
      (writeAll env0 state0 true
        (writeAll env0 state0 false { lastHash := none }).ps).res =
          Except.ok false ∧
      (writeAll env0 state0 true
        (writeAll env0 state0 false { lastHash := none }).ps).writes = [] :=
  ⟨rfl, rfl, by simp, rfl, rfl⟩

/-- Claim C1 (amended): when the fingerprint differs from the stored
`lastHash`, `writeAll` updates `lastHash` to the new fingerprint whether
or not the writes succeed (the update precedes the awaited writes); the
failure is surfaced as an error to the caller, and a subsequent run with
the same page state therefore skips re-emission rather than
re-attempting it. -/
theorem writeAll_updates_lastHash_before_writes
    (env : Env) (state : IGatsbyState) (ps : PipelineState) (h : HashVal)
    (writeOk : Bool)
    (hnew : newHashOf env state = Except.ok h)
    (hneq : ps.lastHash ≠ some h) :
    (writeAll env state writeOk ps).ps.lastHash = some h ∧
      (writeAll env state false ps).res =
        Except.error "EIO: artifact write failed" ∧
      (writeAll env state true
        (writeAll env state false ps).ps).res = Except.ok false := by
  obtain ⟨h1, _, _⟩ := writeAll_write env state ps h writeOk hnew hneq
  obtain ⟨h1f, h2f, _⟩ := writeAll_write env state ps h false hnew hneq
  refine ⟨h1, by simpa using h2f, ?_⟩
  rw [writeAll_skip env state _ h true hnew h1f]

/-- Claim C1 (amended, witness): the statement applied to the concrete
one-page state with `lastHash = none` and failing writes. -/
theorem writeAll_updates_lastHash_before_writes_witness :
    (writeAll env0 state0 false { lastHash := none }).ps.lastHash =
        some hash0 ∧
      (writeAll env0 state0 false { lastHash := none }).res =
        Except.error "EIO: artifact write failed" ∧
      (writeAll env0 state0 true
        (writeAll env0 state0 false { lastHash := none }).ps).res =
          Except.ok false :=
  writeAll_updates_lastHash_before_writes env0 state0 { lastHash := none }
    hash0 false rfl (by simp)

/-- Claim C8: the server-rendering manifest input is built only under the
dev-SSR flag, in which case it is exactly the component-catalog records
whose chunk name occurs in the visited set; with the flag off it is empty
and the ssr-sync-requires module is never among the initiated writes,
while with the flag on any writing pass initiates it. -/
theorem writeAll_ssr_components
    (env : Env) (state : IGatsbyState) (writeOk : Bool) (ps : PipelineState) :
    (env.devSSR = true →
      cleanedSSRComponents env.devSSR state.visitedServerPages
          (getComponents state.pages) =
        (getComponents state.pages).filter fun c =>
          state.visitedServerPages.any fun s => s = c.componentChunkName) ∧
    (env.devSSR = false →
      cleanedSSRComponents env.devSSR state.visitedServerPages
          (getComponents state.pages) = [] ∧
      ssrSyncRequiresArtifact ∉ (writeAll env state writeOk ps).writes) ∧
    (env.devSSR = true →
      (writeAll env state writeOk ps).writes ≠ [] →
      ssrSyncRequiresArtifact ∈ (writeAll env state writeOk ps).writes) := by
  refine ⟨?_, ?_, ?_⟩
  · intro hd
    simp [cleanedSSRComponents, hd]
  · intro hd
    refine ⟨by simp [cleanedSSRComponents, hd], ?_⟩
    rcases hg : getMatchPaths env.gatsbyMajor4 state.pages with e | mp
    · rw [writeAll, hg]
      simp
    · rw [writeAll, hg]
      simp only [hd]
      by_cases heq : some (createHash mp (getComponents state.pages)
          (cleanedSSRComponents false state.visitedServerPages
            (getComponents state.pages))) = ps.lastHash
      · rw [if_pos heq]
        simp
      · rw [if_neg heq]
        show ssrSyncRequiresArtifact ∉
          [syncRequiresArtifact, asyncRequiresArtifact, matchPathsArtifact]
        decide
  · intro hd
    rcases hg : getMatchPaths env.gatsbyMajor4 state.pages with e | mp
    · rw [writeAll, hg]
      intro hne
      exact absurd rfl hne
    · rw [writeAll, hg]
      simp only [hd]
      by_cases heq : some (createHash mp (getComponents state.pages)
          (cleanedSSRComponents true state.visitedServerPages
            (getComponents state.pages))) = ps.lastHash
      · rw [if_pos heq]
        intro hne
        exact absurd rfl hne
      · rw [if_neg heq]
        intro _
        show ssrSyncRequiresArtifact ∈
          ssrSyncRequiresArtifact ::
            [syncRequiresArtifact, asyncRequiresArtifact, matchPathsArtifact]
        exact List.mem_cons_self _ _

/-- Claim C8 (witness): the statement applied to a dev-SSR state with a
visited chunk and to the plain state with the flag off. -/
theorem writeAll_ssr_components_witness :
    (cleanedSSRComponents envSSR.devSSR stateSSR.visitedServerPages
        (getComponents stateSSR.pages) =
      (getComponents stateSSR.pages).filter fun c =>
        stateSSR.visitedServerPages.any fun s => s = c.componentChunkName) ∧
    (cleanedSSRComponents env0.devSSR state0.visitedServerPages
        (getComponents state0.pages) = [] ∧
      ssrSyncRequiresArtifact ∉
        (writeAll env0 state0 true { lastHash := none }).writes) :=
  ⟨(writeAll_ssr_components envSSR stateSSR true { lastHash := none }).1 rfl,
   (writeAll_ssr_components env0 state0 true { lastHash := none }).2.1 rfl⟩

/-- Claim C7: a page handed to `createMatchPathEntry` with an absent
`matchPath` makes it abort with the fatal configuration error (modelled
as `Except.error`, which propagates so that no entry and no entry list is
produced for the pass), rather than the page being silently skipped. -/
theorem createMatchPathEntry_none_errors (page : IGatsbyPage) (i : Nat)
    (h : page.matchPath = none) :
    createMatchPathEntry page i =
      Except.error ("Error: matchPath property is undefined for page " ++
        page.path ++ ", should be a string") ∧
      (∀ e, createMatchPathEntry page i ≠ Except.ok e) ∧
      ∀ (l : List (Nat × IGatsbyPage)), (i, page) ∈ l →
        ∀ out, mapME (fun ip => createMatchPathEntry ip.2 ip.1) l ≠
          Except.ok out := by
  have herr : createMatchPathEntry page i =
      Except.error ("Error: matchPath property is undefined for page " ++
        page.path ++ ", should be a string") := by
    rw [createMatchPathEntry, h]
  refine ⟨herr, ?_, ?_⟩
  · intro e hc
    rw [herr] at hc
    cases hc
  · intro l hmem out hok
    obtain ⟨b, _, hfb⟩ := mapME_ok_mem hok hmem
    rw [herr] at hfb
    cases hfb

/-- Claim C7 (witness): the abort statement applied to the concrete page
`/` which carries no matchPath. -/
theorem createMatchPathEntry_none_errors_witness :
    createMatchPathEntry pageRoot 0 =
      Except.error ("Error: matchPath property is undefined for page " ++
        pageRoot.path ++ ", should be a string") :=
  (createMatchPathEntry_none_errors pageRoot 0 rfl).1

theorem debounceFiresAux_burst :
    ∀ (ts : List Nat) (tp : Nat),
      List.Chain' (fun a b => a ≤ b ∧ b < a + 500) (tp :: ts) →
      ∃ last : Nat, (tp :: ts).getLast? = some last ∧
        debounceFiresAux 500 (tp + 500) ts = [last + 500] ∧
        ∀ x ∈ tp :: ts, x ≤ last := by
  intro ts
  induction ts with
  | nil =>
    intro tp _
    refine ⟨tp, rfl, rfl, ?_⟩
    intro x hx
    rcases List.mem_cons.mp hx with rfl | hx1
    · exact le_refl _
    · cases hx1
  | cons t ts1 ih =>
    intro tp hchain
    obtain ⟨⟨hle, hlt⟩, hchain1⟩ := List.chain'_cons.mp hchain
    obtain ⟨last, hlast, heq, hall⟩ := ih t hchain1
    refine ⟨last, ?_, ?_, ?_⟩
    · rw [List.getLast?_cons_cons]
      exact hlast
    · rw [debounceFiresAux, if_pos hlt]
      exact heq
    · intro x hx
      rcases List.mem_cons.mp hx with rfl | hx1
      · exact le_trans hle (hall t (List.mem_cons_self _ _))
      · exact hall x hx1

/-- Claim C9: trailing-edge debounce.  For a burst of notifications in
which every notification arrives within 500 units of the previous one,
the debounced function fires exactly once, 500 units after the last
notification of the burst — strictly after every notification, so never
at the leading edge. -/
theorem debounce_trailing_edge (t0 : Nat) (ts : List Nat)
    (hchain : List.Chain' (fun a b => a ≤ b ∧ b < a + 500) (t0 :: ts)) :
    ∃ last : Nat, (t0 :: ts).getLast? = some last ∧
      debounceFires 500 (t0 :: ts) = [last + 500] ∧
      ∀ t ∈ t0 :: ts, t < last + 500 := by
  obtain ⟨last, hlast, heq, hall⟩ := debounceFiresAux_burst ts t0 hchain
  refine ⟨last, hlast, heq, ?_⟩
  intro t ht
  have := hall t ht
  omega

/-- Claim C9 (witness): the burst statement applied to the concrete
notification times 0, 100, 400, 800 (each gap below 500): one fire at
1300. -/
theorem debounce_trailing_edge_witness :
    ∃ last : Nat, ([0, 100, 400, 800] : List Nat).getLast? = some last ∧
      debounceFires 500 [0, 100, 400, 800] = [last + 500] ∧
      ∀ t ∈ ([0, 100, 400, 800] : List Nat), t < last + 500 :=
  debounce_trailing_edge 0 [100, 400, 800]
    (by
      refine List.chain'_cons.mpr ⟨⟨by omega, by omega⟩, ?_⟩
      refine List.chain'_cons.mpr ⟨⟨by omega, by omega⟩, ?_⟩
      refine List.chain'_cons.mpr ⟨⟨by omega, by omega⟩, ?_⟩
      exact List.chain'_singleton _)

end RequiresWriter
